import Mathlib

set_option maxHeartbeats 1000000

/-!
Shallow embedding of the archive-extraction, sanitization and
directory-normalization pipeline implemented by
`src/unzip_files_then_clean.py`, together with proofs about the embedded
operations.  Filenames are modelled as lists of characters, directory
trees as an inductive type, and every embedded function mirrors the
control flow of the corresponding Python function on a POSIX system on
which the primitive filesystem calls succeed (the only failure modes the
claims quantify over are the ones the source checks explicitly).
-/

/-- Filenames and log messages are modelled as lists of characters. -/
abbrev Name := List Char

/-- The characters of a string literal. -/
def str (s : String) : Name := s.data

/-- Python `s.startswith(p)` on character lists. -/
def startsWithL : Name → Name → Bool
  | _, [] => true
  | [], _ :: _ => false
  | c :: s, p :: ps => c == p && startsWithL s ps

/-- Python substring test `pat in s` on character lists. -/
def containsSub : Name → Name → Bool
  | [], pat => startsWithL [] pat
  | s@(_ :: s1), pat => startsWithL s pat || containsSub s1 pat

/-- Whether the regular-expression fragment `.*$` matches a remaining
character list: `.` never matches a newline and `$` matches at the end of
the string or just before a final newline (Python `re` semantics without
MULTILINE). -/
def starDollarMatch : Name → Bool
  | [] => true
  | ['\n'] => true
  | c :: rest => c != '\n' && starDollarMatch rest

/-- `re.match(r"^\._.*$", f)` from `unzip_files_then_clean.py` line 435:
the name starts with the two characters `._` and the rest is matched by
`.*$`. -/
def regex_apple_double_match (f : Name) : Bool :=
  match f with
  | '.' :: '_' :: rest => starDollarMatch rest
  | _ => false

/-- The four plain-string members of `APPLE_SYSTEM_FILES`
(`unzip_files_then_clean.py` lines 430-436); the fifth member is the
compiled pattern modelled by `regex_apple_double_match`. -/
def APPLE_SYSTEM_FILE_NAMES : List Name :=
  [str ".DS_Store", str "._.DS_Store", str ".AppleDouble", str ".LSOverride"]

/-- `APPLE_SYSTEM_DIRS` (`unzip_files_then_clean.py` lines 438-444). -/
def APPLE_SYSTEM_DIRS : List Name :=
  [str "__MACOSX", str ".__MACOSX", str ".Spotlight-V100", str ".Trashes",
   str ".fseventsd"]

/-- Python `pattern.replace("*", "")`: every `*` character is removed. -/
def replaceStar (p : Name) : Name := p.filter (fun c => c != '*')

/-- `is_apple_system_file` (`unzip_files_then_clean.py` lines 447-474):
an exact membership test, then a loop over the set that applies the
compiled pattern by regex matching and every plain-string member by a
`startswith` test after stripping `*` characters. -/
def is_apple_system_file (f : Name) : Bool :=
  APPLE_SYSTEM_FILE_NAMES.contains f
    || regex_apple_double_match f
    || APPLE_SYSTEM_FILE_NAMES.any (fun p => startsWithL f (replaceStar p))

/-- The file-artifact predicate as the specification words it for claim
C3: the name is exactly one of the four known artifact filenames or
matches the pattern.  Stated only to be compared with
`is_apple_system_file`, which is the predicate the code applies. -/
def claimed_artifact_name (f : Name) : Bool :=
  APPLE_SYSTEM_FILE_NAMES.contains f || regex_apple_double_match f

example : is_apple_system_file (str ".DS_Store") = true := by decide
example : is_apple_system_file (str "._hidden") = true := by decide
example : is_apple_system_file (str "normal.txt") = false := by decide
example : is_apple_system_file (str ".DS_Store.txt") = true := by decide
example : claimed_artifact_name (str ".DS_Store.txt") = false := by decide

/-!
## Directory trees

A directory tree entry is a regular file, a special entry (symbolic
link, socket, FIFO or device file — the kinds that
`remove_apple_system_files` skips without following), or a directory
with a list of child entries.  Directory listings are snapshots of
`Path.iterdir` in listing order; within one directory the names of the
entries are distinct on a real filesystem, which the theorems assume
explicitly where needed.
-/

mutual
inductive FsEntry where
  | file : Name → FsEntry
  | special : Name → FsEntry
  | dir : Name → FsList → FsEntry
inductive FsList where
  | nil : FsList
  | cons : FsEntry → FsList → FsList
end

/-- The filename of an entry. -/
def FsEntry.name : FsEntry → Name
  | .file n => n
  | .special n => n
  | .dir n _ => n

/-- The ordinary list of entries of a directory listing. -/
def FsList.toList : FsList → List FsEntry
  | .nil => []
  | .cons e l => e :: FsList.toList l

/-- The names occurring in a directory listing, in order. -/
def names : FsList → List Name
  | .nil => []
  | .cons e l => e.name :: names l

/-- Number of entries of a listing (`len(list(p.iterdir()))`). -/
def FsList.length : FsList → Nat
  | .nil => 0
  | .cons _ l => FsList.length l + 1

mutual
/-- One entry as processed by the deepest-first sweep of
`remove_apple_system_files` (`unzip_files_then_clean.py` lines 751-821),
assuming every deletion succeeds: the result entry (`none` when the
entry is removed from its parent listing) together with the number of
file removals and of directory removals counted while processing the
entry and its descendants.  The sweep visits descendants before their
ancestors, so files and directories inside a removed Apple directory
have already been counted when the directory itself is deleted with
`shutil.rmtree`; entries deleted by that `rmtree` without having matched
a pattern themselves are not counted. -/
def cleanE : FsEntry → Option FsEntry × Nat × Nat
  | .file n => if is_apple_system_file n then (none, 1, 0) else (some (.file n), 0, 0)
  | .special n => (some (.special n), 0, 0)
  | .dir n cs =>
      let r := cleanL cs
      if APPLE_SYSTEM_DIRS.contains n then (none, r.2.1, r.2.2 + 1)
      else (some (.dir n r.1), r.2.1, r.2.2)

/-- `cleanE` applied across a directory listing, totalling the counts. -/
def cleanL : FsList → FsList × Nat × Nat
  | .nil => (.nil, 0, 0)
  | .cons e es =>
      let r := cleanE e
      let rs := cleanL es
      (match r.1 with
        | none => rs.1
        | some e1 => .cons e1 rs.1,
       r.2.1 + rs.2.1, r.2.2 + rs.2.2)
end

/-- `remove_apple_system_files(directory)` on a directory whose listing
is `l`, assuming every deletion succeeds: the cleaned listing together
with the `(files_removed, dirs_removed)` counts the Python function
returns. -/
def remove_apple_system_files (l : FsList) : FsList × Nat × Nat := cleanL l

example :
    remove_apple_system_files
      (.cons (.dir (str "__MACOSX") (.cons (.file (str "._report.pdf")) .nil))
        (.cons (.file (str "report.pdf")) .nil))
      = (.cons (.file (str "report.pdf")) .nil, 1, 1) := by rfl

mutual
/-- An entry surviving a cleaning sweep is untouched by a second sweep. -/
theorem cleanE_clean : ∀ e e1, (cleanE e).1 = some e1 → cleanE e1 = (some e1, 0, 0)
  | .file n, e1, h => by
      cases ha : is_apple_system_file n with
      | false =>
          simp only [cleanE, ha, Bool.false_eq_true, if_false, Option.some.injEq] at h
          subst h
          simp [cleanE, ha]
      | true => simp [cleanE, ha] at h
  | .special n, e1, h => by
      simp only [cleanE, Option.some.injEq] at h
      subst h
      rfl
  | .dir n cs, e1, h => by
      cases ha : APPLE_SYSTEM_DIRS.contains n with
      | false =>
          simp only [cleanE, ha, Bool.false_eq_true, if_false,
            Option.some.injEq] at h
          subst h
          simp only [cleanE, ha, Bool.false_eq_true, if_false,
            cleanL_clean cs]
      | true =>
          simp only [cleanE, ha, if_true] at h
          exact absurd h (by simp)

/-- A listing produced by a cleaning sweep is a fixed point of the sweep
and a second sweep counts no removals. -/
theorem cleanL_clean : ∀ l, cleanL (cleanL l).1 = ((cleanL l).1, 0, 0)
  | .nil => rfl
  | .cons e es => by
      cases he : (cleanE e).1 with
      | none => simp only [cleanL, he, cleanL_clean es]
      | some e1 =>
          simp only [cleanL, he, cleanL_clean es, cleanE_clean e e1 he]
end

/-- C7: artifact cleaning is idempotent — on a tree where all deletions
succeed, running `remove_apple_system_files` again right after a first
run leaves the tree unchanged and removes zero files and zero
directories. -/
theorem remove_apple_system_files_idempotent (l : FsList) :
    remove_apple_system_files (remove_apple_system_files l).1
      = ((remove_apple_system_files l).1, 0, 0) :=
  cleanL_clean l

/-- C3 counterexample: the file `.DS_Store.txt` merely begins with the
known artifact name `.DS_Store`, is not equal to any of the four names
and does not match `^\._.*$`, yet `is_apple_system_file` accepts it and
the cleaning sweep deletes it (counting one removed file).  The claimed
"deleted if and only if exactly equal or regex-matched" criterion is
therefore false at this input. -/
theorem apple_file_prefix_counterexample :
    is_apple_system_file (str ".DS_Store.txt") = true
      ∧ claimed_artifact_name (str ".DS_Store.txt") = false
      ∧ cleanE (.file (str ".DS_Store.txt")) = (none, 1, 0) := by
  refine ⟨by decide, by decide, ?_⟩
  have h : is_apple_system_file (str ".DS_Store.txt") = true := by decide
  simp [cleanE, h]

/-- `startsWithL` is reflexive. -/
theorem startsWithL_refl : ∀ n : Name, startsWithL n n = true
  | [] => rfl
  | c :: s => by simp [startsWithL, startsWithL_refl s]

/-- Exact equality with a member of `APPLE_SYSTEM_FILE_NAMES` is
subsumed by the loop's `startswith` test against the same member. -/
theorem contains_imp_any_startsWith (f : Name)
    (h : APPLE_SYSTEM_FILE_NAMES.contains f = true) :
    APPLE_SYSTEM_FILE_NAMES.any (fun p => startsWithL f (replaceStar p))
      = true := by
  have hm : f ∈ APPLE_SYSTEM_FILE_NAMES := by simpa using h
  simp only [APPLE_SYSTEM_FILE_NAMES, List.mem_cons, List.not_mem_nil,
    or_false] at hm
  rcases hm with h1 | h1 | h1 | h1 <;> subst h1 <;> decide

/-- C3 corrected: during cleaning a regular file is deleted exactly when
its name starts with one of the four known artifact filenames (after the
code's `*`-stripping, which leaves them unchanged) or matches the
pattern `^\._.*$`; in particular names that merely begin with a known
artifact name, such as `.DS_Store.txt`, are deleted as well. -/
theorem is_apple_system_file_prefix_spec (f : Name) :
    (cleanE (.file f)).1 = none
      ↔ (APPLE_SYSTEM_FILE_NAMES.any (fun p => startsWithL f (replaceStar p))
          || regex_apple_double_match f) = true := by
  have key : is_apple_system_file f
      = (APPLE_SYSTEM_FILE_NAMES.any (fun p => startsWithL f (replaceStar p))
          || regex_apple_double_match f) := by
    unfold is_apple_system_file
    cases hc : APPLE_SYSTEM_FILE_NAMES.contains f with
    | false => simp [Bool.or_comm]
    | true => simp [contains_imp_any_startsWith f hc]
  cases ha : is_apple_system_file f with
  | false =>
      rw [ha] at key
      simp [cleanE, ha, ← key]
  | true =>
      rw [ha] at key
      simp [cleanE, ha, ← key]

/-!
## Operation statistics and logging
-/

/-- `LogLevel` (`unzip_files_then_clean.py` lines 126-142). -/
inductive LogLevel where
  | INFO
  | WARNING
  | ERROR
  | SUCCESS
  | OPERATION
  | DEBUG
deriving DecidableEq

/-- `LogEntry` (`unzip_files_then_clean.py` lines 162-174); the unused
`timestamp` field is omitted. -/
structure LogEntry where
  message : Name
  level : LogLevel
deriving DecidableEq

/-- `OperationStats` (`unzip_files_then_clean.py` lines 177-208). -/
structure OperationStats where
  total_zips : Nat
  successful_extractions : Nat
  failed_extractions : Nat
  files_removed : Nat
  dirs_removed : Nat
  dirs_examined : Nat
  dirs_reorganized : Nat
  dirs_ignored : Nat
  logs : List LogEntry
  removed_files_details : List Name
  warnings : Nat
  errors : Nat

/-- A freshly constructed `OperationStats()` with all dataclass default
values. -/
def initial_stats : OperationStats :=
  { total_zips := 0, successful_extractions := 0, failed_extractions := 0,
    files_removed := 0, dirs_removed := 0, dirs_examined := 0,
    dirs_reorganized := 0, dirs_ignored := 0, logs := [],
    removed_files_details := [], warnings := 0, errors := 0 }

/-- `OperationStats.add_log` (`unzip_files_then_clean.py` lines
210-221): bump the `warnings` counter on a WARNING entry and the
`errors` counter on an ERROR entry, then append the entry to `logs`. -/
def add_log (s : OperationStats) (message : Name) (level : LogLevel) :
    OperationStats :=
  let s1 :=
    if level = LogLevel.WARNING then { s with warnings := s.warnings + 1 }
    else if level = LogLevel.ERROR then { s with errors := s.errors + 1 }
    else s
  { s1 with logs := s1.logs ++ [⟨message, level⟩] }

/-- A sequence of `add_log` calls, applied in order. -/
def run_add_logs (s : OperationStats) : List (Name × LogLevel) → OperationStats
  | [] => s
  | c :: cs => run_add_logs (add_log s c.1 c.2) cs

/-- The log entry created by one `add_log` call. -/
def entry_of (c : Name × LogLevel) : LogEntry := ⟨c.1, c.2⟩

theorem add_log_logs (s : OperationStats) (m : Name) (lvl : LogLevel) :
    (add_log s m lvl).logs = s.logs ++ [⟨m, lvl⟩] := by
  cases lvl <;> rfl

theorem add_log_errors (s : OperationStats) (m : Name) (lvl : LogLevel) :
    (add_log s m lvl).errors
      = s.errors + (if lvl = LogLevel.ERROR then 1 else 0) := by
  cases lvl <;> rfl

theorem add_log_warnings (s : OperationStats) (m : Name) (lvl : LogLevel) :
    (add_log s m lvl).warnings
      = s.warnings + (if lvl = LogLevel.WARNING then 1 else 0) := by
  cases lvl <;> rfl

/-- Behaviour of an arbitrary `add_log` sequence from an arbitrary
starting state: the log list only grows at its end, and each counter
advances by the number of entries of the matching severity. -/
theorem run_add_logs_spec (calls : List (Name × LogLevel)) :
    ∀ s : OperationStats,
      (run_add_logs s calls).logs = s.logs ++ calls.map entry_of
      ∧ (run_add_logs s calls).errors
          = s.errors
            + (calls.filter (fun c => c.2 = LogLevel.ERROR)).length
      ∧ (run_add_logs s calls).warnings
          = s.warnings
            + (calls.filter (fun c => c.2 = LogLevel.WARNING)).length := by
  induction calls with
  | nil => intro s; simp [run_add_logs]
  | cons c cs ih =>
      intro s
      rcases ih (add_log s c.1 c.2) with ⟨h1, h2, h3⟩
      refine ⟨?_, ?_, ?_⟩
      · rw [run_add_logs, h1, add_log_logs]
        simp [entry_of]
      · rw [run_add_logs, h2, add_log_errors]
        by_cases hc : c.2 = LogLevel.ERROR <;>
          · simp [hc, List.filter]
            try omega
      · rw [run_add_logs, h3, add_log_warnings]
        by_cases hc : c.2 = LogLevel.WARNING <;>
          · simp [hc, List.filter]
            try omega

/-- Counting a severity among the created entries equals counting it
among the calls. -/
theorem count_level_map (lvl : LogLevel) :
    ∀ calls : List (Name × LogLevel),
      ((calls.map entry_of).filter (fun e => e.level = lvl)).length
        = (calls.filter (fun c => c.2 = lvl)).length
  | [] => rfl
  | c :: cs => by
      by_cases hc : c.2 = lvl <;>
        simp [entry_of, List.filter, hc, count_level_map lvl cs]

/-- C9: starting from a fresh `OperationStats`, after any sequence of
`add_log` calls the `errors` counter equals the number of ERROR-level
entries in `logs`, the `warnings` counter equals the number of
WARNING-level entries, and `logs` is exactly the appended entries of the
calls in order — `add_log` never removes or modifies an existing
entry. -/
theorem add_log_invariant (calls : List (Name × LogLevel)) :
    (run_add_logs initial_stats calls).errors
        = ((run_add_logs initial_stats calls).logs.filter
            (fun e => e.level = LogLevel.ERROR)).length
      ∧ (run_add_logs initial_stats calls).warnings
        = ((run_add_logs initial_stats calls).logs.filter
            (fun e => e.level = LogLevel.WARNING)).length
      ∧ (run_add_logs initial_stats calls).logs = calls.map entry_of := by
  rcases run_add_logs_spec calls initial_stats with ⟨h1, h2, h3⟩
  have hl : (run_add_logs initial_stats calls).logs = calls.map entry_of := by
    simpa [initial_stats] using h1
  refine ⟨?_, ?_, hl⟩
  · rw [hl, count_level_map]
    simpa [initial_stats] using h2
  · rw [hl, count_level_map]
    simpa [initial_stats] using h3

/-!
## Summary rendering (division guards)
-/

/-- The success-rate cell of the summary table
(`unzip_files_then_clean.py` lines 270-275 and 326-334): when
`total_zips` is nonzero the cell evaluates the division
`successful_extractions / total_zips` — modelled as the pair
`(numerator, denominator)` that the division receives — and otherwise
the cell renders the string `N/A` (`none`) without evaluating any
division. -/
def success_rate_cell (s : OperationStats) : Option (Nat × Nat) :=
  if s.total_zips ≠ 0 then some (s.successful_extractions, s.total_zips)
  else none

/-- The reorganization-rate cell (`unzip_files_then_clean.py` lines
299-304 and 341-349), guarded by `dirs_examined` in the same way. -/
def reorg_rate_cell (s : OperationStats) : Option (Nat × Nat) :=
  if s.dirs_examined ≠ 0 then some (s.dirs_reorganized, s.dirs_examined)
  else none

/-- C8: summary rendering never divides by zero — with zero archives
processed the success-rate cell renders `N/A`, with zero directories
examined the reorganization-rate cell renders `N/A`, and whenever either
guarded division is evaluated its denominator is nonzero. -/
theorem summary_rates_guarded (s : OperationStats) :
    (s.total_zips = 0 → success_rate_cell s = none)
      ∧ (∀ n d, success_rate_cell s = some (n, d) → d ≠ 0)
      ∧ (s.dirs_examined = 0 → reorg_rate_cell s = none)
      ∧ (∀ n d, reorg_rate_cell s = some (n, d) → d ≠ 0) := by
  refine ⟨fun h => by simp [success_rate_cell, h], ?_,
    fun h => by simp [reorg_rate_cell, h], ?_⟩
  · intro n d h
    by_cases hz : s.total_zips = 0
    · simp [success_rate_cell, hz] at h
    · simp only [success_rate_cell, if_pos (by exact hz)] at h
      rcases h with ⟨h1, h2⟩
      omega
  · intro n d h
    by_cases hz : s.dirs_examined = 0
    · simp [reorg_rate_cell, hz] at h
    · simp only [reorg_rate_cell, if_pos (by exact hz)] at h
      rcases h with ⟨h1, h2⟩
      omega

/-- Witness for C8 at the fresh statistics state: both denominators are
zero and both cells render `N/A`. -/
theorem summary_rates_guarded_witness :
    success_rate_cell initial_stats = none
      ∧ reorg_rate_cell initial_stats = none :=
  ⟨(summary_rates_guarded initial_stats).1 rfl,
   (summary_rates_guarded initial_stats).2.2.1 rfl⟩

/-!
## Archive extraction

`extract_zip_files` (`unzip_files_then_clean.py` lines 824-981)
processes each archive of the source directory in turn.  The model below
embeds the processing of one archive on POSIX (`os.name == "posix"`, so
`is_path_too_long` always returns `False`), with `os.stat`, `mkdir`,
`shutil.rmtree` and `unlink` succeeding; the operator's answers to the
three possible confirmation prompts are inputs.  The outcome collects
the statistics deltas, the final state of the destination directory
(`none` when it does not exist), whether the archive file was deleted,
and the log entries appended while processing the archive (formatted
messages are modelled by their constant prefix). -/

/-- One member of `zip_ref.infolist()`: its path inside the archive and
whether its flag bits mark it encrypted (`flag_bits & 0x1`). -/
structure ZipEntryInfo where
  filename : Name
  encrypted : Bool

/-- One ZIP archive of the source directory as the extraction loop sees
it: destination name (`zip_file.stem`), size from `stat`, whether
`zipfile.ZipFile` opens it (`False` models a raised `BadZipFile`), the
result of `zip_ref.testzip()`, its member list, and the directory
listing that `extractall` would produce. -/
structure ZipArchive where
  stem : Name
  size : Nat
  opens_ok : Bool
  corrupted : Option Name
  infolist : List ZipEntryInfo
  contents : FsList

/-- `os.path.isabs` on POSIX. -/
def os_path_isabs (f : Name) : Bool := startsWithL f (str "/")

/-- The per-entry safety test of `extract_zip_files` lines 932-939: an
absolute path or a `../` traversal segment in the member name. -/
def bad_path_entry (e : ZipEntryInfo) : Bool :=
  os_path_isabs e.filename || containsSub e.filename (str "../")

/-- Whether any member is flagged encrypted (line 917). -/
def zip_has_encrypted (z : ZipArchive) : Bool :=
  z.infolist.any (fun f => f.encrypted)

/-- Whether any member fails the safety test (lines 932-939). -/
def zip_has_bad_path (z : ZipArchive) : Bool :=
  z.infolist.any bad_path_entry

/-- `is_path_too_long` (`unzip_files_then_clean.py` lines 658-705) on a
POSIX system: the whole Windows branch is skipped and the function
returns `False` ("Unix systems generally don't have length limits"). -/
def is_path_too_long_posix (_p : Name) : Bool := false

/-- The outcome of processing one archive: statistics deltas, the final
destination-directory state, whether the archive file was deleted, and
the appended log entries. -/
structure ZipOutcome where
  total_delta : Nat
  success_delta : Nat
  failed_delta : Nat
  files_removed_delta : Nat
  dirs_removed_delta : Nat
  dest : Option FsList
  zip_removed : Bool
  logs : List LogEntry

/-- The part of the loop body inside `with zipfile.ZipFile(...)` and its
exception handlers (`unzip_files_then_clean.py` lines 906-981), entered
right after `dest_dir.mkdir` succeeded, so the destination exists and is
empty.  Models, in the source's order: open failure (`BadZipFile` caught
at line 964, which removes the destination), the `testzip` integrity
check (line 910: log, count a failure and `continue`, leaving the empty
destination in place; `if corrupted:` tests the truthiness of the
reported member name, modelled as `isSome` since member names are
non-empty), the encryption check (line 917: warn, then
without confirmation count a failure and `continue`, again leaving the
destination), the per-entry safety check (lines 932-939: count a
failure, raise `BadZipFile`, whose handler counts a second failure and
removes the destination), then `extractall`, the artifact cleaning of
the destination, and the final empty/non-empty decision (lines
944-962). -/
def stage_extract (no_confirm ans_password : Bool) (z : ZipArchive)
    (logs : List LogEntry) : ZipOutcome :=
  if z.opens_ok = false then
    { total_delta := 1, success_delta := 0, failed_delta := 1,
      files_removed_delta := 0, dirs_removed_delta := 0,
      dest := none, zip_removed := false,
      logs := logs ++ [⟨str "Bad ZIP file", .ERROR⟩] }
  else if z.corrupted.isSome then
    { total_delta := 1, success_delta := 0, failed_delta := 1,
      files_removed_delta := 0, dirs_removed_delta := 0,
      dest := some .nil, zip_removed := false,
      logs := logs ++ [⟨str "Corrupted file in ZIP", .ERROR⟩] }
  else
    let logs1 :=
      if zip_has_encrypted z then
        logs ++ [⟨str "Password-protected ZIP detected", .WARNING⟩]
      else logs
    if zip_has_encrypted z && !no_confirm && !ans_password then
      { total_delta := 1, success_delta := 0, failed_delta := 1,
        files_removed_delta := 0, dirs_removed_delta := 0,
        dest := some .nil, zip_removed := false,
        logs := logs1 ++ [⟨str "Skipped password-protected ZIP", .INFO⟩] }
    else if zip_has_bad_path z then
      { total_delta := 1, success_delta := 0, failed_delta := 2,
        files_removed_delta := 0, dirs_removed_delta := 0,
        dest := none, zip_removed := false,
        logs := logs1 ++ [⟨str "ZIP contains unsafe paths", .ERROR⟩,
          ⟨str "Bad ZIP file", .ERROR⟩] }
    else
      let r := cleanL z.contents
      match r.1 with
      | .nil =>
          { total_delta := 1, success_delta := 0, failed_delta := 1,
            files_removed_delta := r.2.1, dirs_removed_delta := r.2.2,
            dest := some .nil, zip_removed := false,
            logs := logs1 ++ [⟨str "Empty ZIP file", .ERROR⟩] }
      | cleaned =>
          { total_delta := 1, success_delta := 1, failed_delta := 0,
            files_removed_delta := r.2.1, dirs_removed_delta := r.2.2,
            dest := some cleaned, zip_removed := true,
            logs := logs1 ++ [⟨str "Extraction successful", .SUCCESS⟩] }

/-- Processing of one archive by the loop body of `extract_zip_files`
(`unzip_files_then_clean.py` lines 848-981): the path-length check (a
no-op on POSIX), the size ceiling with its confirmation prompt, the
existing-destination handling with its confirmation prompt, directory
creation, and the extraction stage.  `dest_before` is the state of
`source_dir / zip_file.stem` when the loop reaches this archive. -/
def process_zip (no_confirm ans_large ans_overwrite ans_password : Bool)
    (max_zip_size : Nat) (dest_before : Option FsList) (z : ZipArchive) :
    ZipOutcome :=
  let logs0 : List LogEntry :=
    [⟨str "Processing ZIP", .OPERATION⟩, ⟨str "Creating directory", .INFO⟩]
  if is_path_too_long_posix z.stem then
    { total_delta := 1, success_delta := 0, failed_delta := 1,
      files_removed_delta := 0, dirs_removed_delta := 0,
      dest := dest_before, zip_removed := false,
      logs := logs0 ++ [⟨str "Path too long for Windows", .ERROR⟩] }
  else
    let logs1 :=
      if max_zip_size < z.size then
        logs0 ++ [⟨str "ZIP file too large", .WARNING⟩]
      else logs0
    if decide (max_zip_size < z.size) && !no_confirm && !ans_large then
      { total_delta := 1, success_delta := 0, failed_delta := 1,
        files_removed_delta := 0, dirs_removed_delta := 0,
        dest := dest_before, zip_removed := false,
        logs := logs1 ++ [⟨str "Skipped large ZIP file", .INFO⟩] }
    else
      match dest_before with
      | some cs =>
          let logs2 :=
            logs1 ++ [⟨str "Destination directory exists", .WARNING⟩]
          if !no_confirm && !ans_overwrite then
            { total_delta := 1, success_delta := 0, failed_delta := 1,
              files_removed_delta := 0, dirs_removed_delta := 0,
              dest := some cs, zip_removed := false,
              logs := logs2 ++ [⟨str "Skipped by user", .INFO⟩] }
          else
            stage_extract no_confirm ans_password z
              (logs2 ++ [⟨str "Cleared existing directory", .OPERATION⟩])
      | none => stage_extract no_confirm ans_password z logs1

/-- A well-formed archive containing one traversal entry `../evil.txt`. -/
def zipBadPath : ZipArchive :=
  { stem := str "a", size := 4, opens_ok := true, corrupted := none,
    infolist := [⟨str "../evil.txt", false⟩], contents := .nil }

/-- An archive whose integrity check reports a corrupted member. -/
def zipCorrupt : ZipArchive :=
  { stem := str "a", size := 4, opens_ok := true,
    corrupted := some (str "x.txt"), infolist := [], contents := .nil }

/-- A small healthy archive. -/
def zipPlain : ZipArchive :=
  { stem := str "b", size := 4, opens_ok := true, corrupted := none,
    infolist := [⟨str "x.txt", false⟩],
    contents := .cons (.file (str "x.txt")) .nil }

/-- Pre-existing destination content used by the counterexamples. -/
def destKeep : FsList := .cons (.file (str "keep.txt")) .nil

/-- Under a passing size gate and a passed existing-destination gate,
processing reaches the extraction stage. -/
theorem process_zip_reaches_stage
    (no_confirm ans_large ans_overwrite ans_password : Bool)
    (max_zip_size : Nat) (dest_before : Option FsList) (z : ZipArchive)
    (hsize : z.size ≤ max_zip_size)
    (hgate : dest_before = none ∨ no_confirm = true ∨ ans_overwrite = true) :
    ∃ L, process_zip no_confirm ans_large ans_overwrite ans_password
        max_zip_size dest_before z
      = stage_extract no_confirm ans_password z L := by
  have hlt : ¬ max_zip_size < z.size := Nat.not_lt.mpr hsize
  rcases dest_before with _ | cs
  · exact ⟨_, by simp [process_zip, is_path_too_long_posix, hlt]; rfl⟩
  · rcases hgate with h | h | h
    · exact absurd h (by simp)
    · subst h
      exact ⟨_, by simp [process_zip, is_path_too_long_posix, hlt]; rfl⟩
    · subst h
      exact ⟨_, by simp [process_zip, is_path_too_long_posix, hlt]; rfl⟩

/-- In the extraction stage, a safety rejection (absolute or traversal
member path) counts two failures and removes the destination. -/
theorem stage_extract_bad_path
    (no_confirm ans_password : Bool) (z : ZipArchive) (L : List LogEntry)
    (hopen : z.opens_ok = true) (hcor : z.corrupted = none)
    (henc : zip_has_encrypted z = false ∨ no_confirm = true
      ∨ ans_password = true)
    (hbad : zip_has_bad_path z = true) :
    (stage_extract no_confirm ans_password z L).dest = none
      ∧ (stage_extract no_confirm ans_password z L).failed_delta = 2
      ∧ (stage_extract no_confirm ans_password z L).success_delta = 0
      ∧ (stage_extract no_confirm ans_password z L).total_delta = 1 := by
  have hpw : (zip_has_encrypted z && !no_confirm && !ans_password) = false := by
    rcases henc with h | h | h <;> simp [h]
  unfold stage_extract
  simp [hopen, hcor, hpw, hbad]

/-- In the extraction stage, a corrupted member makes the loop `continue`
without touching the destination directory that was just created. -/
theorem stage_extract_corrupted
    (no_confirm ans_password : Bool) (z : ZipArchive) (L : List LogEntry)
    (hopen : z.opens_ok = true) (hcor : z.corrupted.isSome = true) :
    (stage_extract no_confirm ans_password z L).dest = some FsList.nil
      ∧ (stage_extract no_confirm ans_password z L).failed_delta = 1 := by
  unfold stage_extract
  simp [hopen, hcor]

/-- In the extraction stage, declining the encrypted-archive prompt makes
the loop `continue` without touching the created destination. -/
theorem stage_extract_encrypted_declined
    (z : ZipArchive) (L : List LogEntry)
    (hopen : z.opens_ok = true) (hcor : z.corrupted = none)
    (henc : zip_has_encrypted z = true) :
    (stage_extract false false z L).dest = some FsList.nil
      ∧ (stage_extract false false z L).failed_delta = 1 := by
  unfold stage_extract
  simp [hopen, hcor, henc]

/-- C1 counterexample: for an archive whose integrity check reports a
corrupted member — an archive that fails integrity validation — the
destination directory created for it still exists (empty) after the
archive is processed, so the state is not restored. -/
theorem extract_integrity_counterexample :
    zipCorrupt.corrupted.isSome = true
      ∧ (process_zip true false false false 1000 none zipCorrupt).dest
          = some FsList.nil
      ∧ (process_zip true false false false 1000 none zipCorrupt).failed_delta
          = 1 := by
  refine ⟨rfl, ?_, ?_⟩ <;> rfl

/-- C1 corrected: only the unsafe-path safety rejection (and an archive
that fails to open as a ZIP) removes the created destination directory;
an archive failing the integrity check, or an encrypted archive declined
by the operator, leaves the created (empty) destination directory in
place. -/
theorem extract_validation_destination
    (no_confirm ans_large ans_overwrite ans_password : Bool)
    (max_zip_size : Nat) (dest_before : Option FsList) (z : ZipArchive)
    (hsize : z.size ≤ max_zip_size)
    (hgate : dest_before = none ∨ no_confirm = true ∨ ans_overwrite = true)
    (hopen : z.opens_ok = true) :
    (z.corrupted = none →
      (zip_has_encrypted z = false ∨ no_confirm = true ∨ ans_password = true) →
      zip_has_bad_path z = true →
      (process_zip no_confirm ans_large ans_overwrite ans_password
          max_zip_size dest_before z).dest = none)
    ∧ (z.corrupted.isSome = true →
      (process_zip no_confirm ans_large ans_overwrite ans_password
          max_zip_size dest_before z).dest = some FsList.nil)
    ∧ (z.corrupted = none → zip_has_encrypted z = true →
      no_confirm = false → ans_password = false →
      (process_zip no_confirm ans_large ans_overwrite ans_password
          max_zip_size dest_before z).dest = some FsList.nil) := by
  rcases process_zip_reaches_stage no_confirm ans_large ans_overwrite
    ans_password max_zip_size dest_before z hsize hgate with ⟨L, hL⟩
  rw [hL]
  refine ⟨fun hcor henc hbad =>
      (stage_extract_bad_path no_confirm ans_password z L hopen hcor henc
        hbad).1,
    fun hcor =>
      (stage_extract_corrupted no_confirm ans_password z L hopen hcor).1,
    fun hcor henc hnc hap => ?_⟩
  subst hnc
  subst hap
  exact (stage_extract_encrypted_declined z L hopen hcor henc).1

/-- Witness for C1 (corrected) at concrete archives: the unsafe-path
archive ends with no destination directory, while the corrupted archive
leaves an empty one. -/
theorem extract_validation_destination_witness :
    (process_zip true false false false 1000 none zipBadPath).dest = none
      ∧ (process_zip true false false false 1000 none zipCorrupt).dest
          = some FsList.nil :=
  ⟨(extract_validation_destination true false false false 1000 none
      zipBadPath (by decide) (Or.inl rfl) rfl).1 rfl (Or.inr (Or.inl rfl))
      (by decide),
   (extract_validation_destination true false false false 1000 none
      zipCorrupt (by decide) (Or.inl rfl) rfl).2.1 rfl⟩

/-- C4 counterexample: with an existing destination and the overwrite
prompt declined, the entry is counted in `failed_extractions`
(`failed_delta = 1`) — there is no separate "skipped" counter, so the
entry is recorded as failed, contrary to the claim that it is recorded
as skipped and not as failed. -/
theorem overwrite_decline_counterexample :
    (process_zip false false false false 1000 (some destKeep)
        zipPlain).failed_delta = 1
      ∧ (process_zip false false false false 1000 (some destKeep)
          zipPlain).dest = some destKeep
      ∧ (process_zip false false false false 1000 (some destKeep)
          zipPlain).success_delta = 0 := by
  refine ⟨?_, ?_, ?_⟩ <;> rfl

/-- C4 corrected: when the destination exists and the operator declines
the overwrite prompt, the existing destination content is left untouched
and an INFO-level "Skipped by user" entry is logged, but the archive is
counted in `failed_extractions` (there is no skip counter), not in
`successful_extractions`, and the archive file is kept. -/
theorem overwrite_decline_spec (ans_large ans_password : Bool)
    (max_zip_size : Nat) (cs : FsList) (z : ZipArchive)
    (hsize : z.size ≤ max_zip_size) :
    (process_zip false ans_large false ans_password max_zip_size
        (some cs) z).dest = some cs
      ∧ (process_zip false ans_large false ans_password max_zip_size
          (some cs) z).failed_delta = 1
      ∧ (process_zip false ans_large false ans_password max_zip_size
          (some cs) z).success_delta = 0
      ∧ (⟨str "Skipped by user", .INFO⟩ : LogEntry)
          ∈ (process_zip false ans_large false ans_password max_zip_size
              (some cs) z).logs
      ∧ (process_zip false ans_large false ans_password max_zip_size
          (some cs) z).zip_removed = false := by
  have hlt : ¬ max_zip_size < z.size := Nat.not_lt.mpr hsize
  refine ⟨?_, ?_, ?_, ?_, ?_⟩ <;>
    simp [process_zip, is_path_too_long_posix, hlt]

/-- Witness for C4 (corrected) at a concrete archive and destination. -/
theorem overwrite_decline_spec_witness :
    (process_zip false false false false 1000 (some destKeep)
        zipPlain).dest = some destKeep
      ∧ (process_zip false false false false 1000 (some destKeep)
          zipPlain).failed_delta = 1 :=
  ⟨(overwrite_decline_spec false false 1000 destKeep zipPlain
      (by decide)).1,
   (overwrite_decline_spec false false 1000 destKeep zipPlain
      (by decide)).2.1⟩

/-- C10: an archive rejected for an absolute or traversal member path
has `failed_extractions` incremented exactly twice — once before the
`BadZipFile` is raised and once in its handler — while `total_zips`
advanced by one, so `successful_extractions + failed_extractions`
exceeds `total_zips` after such an archive. -/
theorem bad_path_double_count
    (no_confirm ans_large ans_overwrite ans_password : Bool)
    (max_zip_size : Nat) (dest_before : Option FsList) (z : ZipArchive)
    (hsize : z.size ≤ max_zip_size)
    (hgate : dest_before = none ∨ no_confirm = true ∨ ans_overwrite = true)
    (hopen : z.opens_ok = true) (hcor : z.corrupted = none)
    (henc : zip_has_encrypted z = false ∨ no_confirm = true
      ∨ ans_password = true)
    (hbad : zip_has_bad_path z = true) :
    (process_zip no_confirm ans_large ans_overwrite ans_password
        max_zip_size dest_before z).failed_delta = 2
      ∧ (process_zip no_confirm ans_large ans_overwrite ans_password
          max_zip_size dest_before z).success_delta = 0
      ∧ (process_zip no_confirm ans_large ans_overwrite ans_password
          max_zip_size dest_before z).total_delta = 1
      ∧ (process_zip no_confirm ans_large ans_overwrite ans_password
            max_zip_size dest_before z).total_delta
        < (process_zip no_confirm ans_large ans_overwrite ans_password
              max_zip_size dest_before z).success_delta
          + (process_zip no_confirm ans_large ans_overwrite ans_password
              max_zip_size dest_before z).failed_delta := by
  rcases process_zip_reaches_stage no_confirm ans_large ans_overwrite
    ans_password max_zip_size dest_before z hsize hgate with ⟨L, hL⟩
  rw [hL]
  rcases stage_extract_bad_path no_confirm ans_password z L hopen hcor henc
    hbad with ⟨_, h2, h3, h4⟩
  rw [h2, h3, h4]
  exact ⟨rfl, rfl, rfl, by omega⟩

/-- Witness for C10 at a concrete archive containing `../evil.txt`. -/
theorem bad_path_double_count_witness :
    (process_zip true false false false 1000 none zipBadPath).failed_delta
        = 2
      ∧ (process_zip true false false false 1000 none
          zipBadPath).total_delta = 1 :=
  ⟨(bad_path_double_count true false false false 1000 none zipBadPath
      (by decide) (Or.inl rfl) rfl rfl (Or.inr (Or.inl rfl))
      (by decide)).1,
   (bad_path_double_count true false false false 1000 none zipBadPath
      (by decide) (Or.inl rfl) rfl rfl (Or.inr (Or.inl rfl))
      (by decide)).2.2.1⟩

/-!
## Orchestrator exit status

`main` (`unzip_files_then_clean.py` lines 1123-1282).  The model
abstracts the outcome of the four directory validations, lock
acquisition, the operator's answer to the "Continue without lock?"
prompt, and the operations phase (the number of ERROR-level entries it
adds to the statistics, and whether an exception escapes it into the
`except Exception` handler, which adds one more ERROR entry).  Before
the operations phase only INFO, DEBUG and WARNING entries can have been
logged on these paths, so the error count going into the phase is
zero. -/

/-- The run-shaped inputs of `main` that determine its exit status. -/
structure MainConfig where
  dir_exists : Bool
  dir_is_dir : Bool
  readable : Bool
  writable : Bool
  no_confirm : Bool
  lock_acquired : Bool
  continue_answer : Bool
  op_errors : Nat
  op_raises : Bool

/-- `main` as a function from the run inputs to the pair
`(exit status, ERROR-level entries accumulated)`: each failed directory
validation logs one ERROR and returns 1; a failed lock acquisition
without `--no-confirm` asks for confirmation and, declined, returns 1
with no ERROR entry logged; an exception escaping the operations adds
one ERROR entry and returns 1; otherwise the returned status is
`0 if stats.errors == 0 else 1` (line 1269). -/
def main_model (c : MainConfig) : Nat × Nat :=
  if c.dir_exists = false then (1, 1)
  else if c.dir_is_dir = false then (1, 1)
  else if c.readable = false then (1, 1)
  else if c.writable = false then (1, 1)
  else if !c.lock_acquired && !c.no_confirm && !c.continue_answer then (1, 0)
  else if c.op_raises then (1, c.op_errors + 1)
  else (if c.op_errors = 0 then 0 else 1, c.op_errors)

/-- C6 counterexample: a run on a valid target directory (all four
validations pass) in which the directory lock cannot be acquired and the
operator declines to continue exits with status 1 while zero
ERROR-level entries were accumulated — so a run with zero error entries
can exit nonzero. -/
theorem lock_decline_exit_counterexample :
    main_model
        { dir_exists := true, dir_is_dir := true, readable := true,
          writable := true, no_confirm := false, lock_acquired := false,
          continue_answer := false, op_errors := 0, op_raises := false }
      = (1, 0) := rfl

/-- C6 corrected: for a run on a valid target directory that gets past
lock acquisition (the lock is acquired, or `--no-confirm` is set, or the
operator agrees to continue without it), the exit status is 0 exactly
when zero ERROR-level entries were accumulated, and it is 1 otherwise;
the only zero-error nonzero exit is the run that stops after declining
to continue without the lock. -/
theorem main_exit_status_iff (c : MainConfig)
    (h1 : c.dir_exists = true) (h2 : c.dir_is_dir = true)
    (h3 : c.readable = true) (h4 : c.writable = true)
    (h5 : c.lock_acquired = true ∨ c.no_confirm = true
      ∨ c.continue_answer = true) :
    ((main_model c).1 = 0 ↔ (main_model c).2 = 0)
      ∧ ((main_model c).1 = 0 ∨ (main_model c).1 = 1) := by
  have hlock : (!c.lock_acquired && !c.no_confirm && !c.continue_answer)
      = false := by
    rcases h5 with h | h | h <;> simp [h]
  unfold main_model
  rw [h1, h2, h3, h4, hlock]
  simp only [Bool.true_eq_false, if_false, Bool.false_eq_true]
  cases hr : c.op_raises with
  | true => simp
  | false =>
      by_cases he : c.op_errors = 0 <;> simp [he]

/-- Witness for C6 (corrected): a clean run exits 0 with zero errors and
a run whose operations logged one error exits 1. -/
theorem main_exit_status_iff_witness :
    ((main_model
        { dir_exists := true, dir_is_dir := true, readable := true,
          writable := true, no_confirm := true, lock_acquired := true,
          continue_answer := false, op_errors := 0,
          op_raises := false }).1 = 0
      ↔ (main_model
        { dir_exists := true, dir_is_dir := true, readable := true,
          writable := true, no_confirm := true, lock_acquired := true,
          continue_answer := false, op_errors := 0,
          op_raises := false }).2 = 0) :=
  (main_exit_status_iff _ rfl rfl rfl rfl (Or.inl rfl)).1

/-!
## Directory reorganization

`find_single_child_dirs` and `reorganize_directories`
(`unzip_files_then_clean.py` lines 984-1077).  The candidate pairs are
computed from a snapshot of the root listing, as the spec's reading of
the one-level pass requires, and each pair is processed in order against
the evolving root listing.  Directory entries inside a listing are
addressed by name, mirroring path lookup on a filesystem where sibling
names are unique (theorems assume the uniqueness explicitly). -/

/-- `root / n`: the entry of the listing named `n`, if any. -/
def lookupEntry : FsList → Name → Option FsEntry
  | .nil, _ => none
  | .cons e l, n => if e.name = n then some e else lookupEntry l n

/-- `shutil.rmtree(root / n)`: drop the entries named `n`. -/
def removeEntry : FsList → Name → FsList
  | .nil, _ => .nil
  | .cons e l, n =>
      if e.name = n then removeEntry l n else .cons e (removeEntry l n)

/-- Replace the entries named `n` by `e2`, in place. -/
def updateEntry : FsList → Name → FsEntry → FsList
  | .nil, _, _ => .nil
  | .cons e l, n, e2 =>
      if e.name = n then .cons e2 (updateEntry l n e2)
      else .cons e (updateEntry l n e2)

/-- Add an entry at the end of a listing (a move into the directory). -/
def appendEntry : FsList → FsEntry → FsList
  | .nil, e => .cons e .nil
  | .cons e0 l, e => .cons e0 (appendEntry l e)

/-- The test of `find_single_child_dirs` on one root entry: a directory
whose listing has exactly one entry which is itself a directory yields
the `(parent name, child name)` pair. -/
def single_child_of : FsEntry → Option (Name × Name)
  | .dir p (.cons (.dir c _) .nil) => some (p, c)
  | _ => none

/-- `find_single_child_dirs(root_dir)` (`unzip_files_then_clean.py`
lines 984-995) over a snapshot of the root listing. -/
def find_single_child_dirs : FsList → List (Name × Name)
  | .nil => []
  | .cons e l =>
      match single_child_of e with
      | some pc => pc :: find_single_child_dirs l
      | none => find_single_child_dirs l

/-- The move step of one reorganization iteration
(`unzip_files_then_clean.py` lines 1056-1077): `shutil.move` of
`root/p/c` into `root` — failing when the parent or the child no longer
exists or the target name re-appeared — then the parent-empty check,
`parent_dir.rmdir()` and the `dirs_reorganized` / `dirs_ignored`
accounting. -/
def reorg_move (root : FsList) (s : OperationStats) (p c : Name) :
    FsList × OperationStats :=
  let s1 := add_log s (str "Moving directory") .INFO
  match lookupEntry root p with
  | some (.dir pn cs) =>
      (match lookupEntry cs c with
       | some child =>
          (match lookupEntry root c with
           | some _ =>
              let s2 := add_log s1 (str "Failed to move directory") .ERROR
              (root, { s2 with dirs_ignored := s2.dirs_ignored + 1 })
           | none =>
              let root1 := updateEntry root p (.dir pn (removeEntry cs c))
              let root2 := appendEntry root1 child
              (match removeEntry cs c with
               | .nil =>
                  let s2 := add_log s1 (str "Reorganization successful")
                    .SUCCESS
                  (removeEntry root2 p,
                   { s2 with dirs_reorganized := s2.dirs_reorganized + 1 })
               | _ =>
                  let s2 := add_log s1 (str "Parent not empty after move")
                    .WARNING
                  (root2, { s2 with dirs_ignored := s2.dirs_ignored + 1 })))
       | none =>
          let s2 := add_log s1 (str "Failed to move directory") .ERROR
          (root, { s2 with dirs_ignored := s2.dirs_ignored + 1 }))
  | _ =>
      let s2 := add_log s1 (str "Failed to move directory") .ERROR
      (root, { s2 with dirs_ignored := s2.dirs_ignored + 1 })

/-- The existing-target handling of one reorganization iteration
(`unzip_files_then_clean.py` lines 1031-1054) — the path-length check is
a no-op on POSIX; `target_path != child_dir` always holds because
`root/c` and `root/p/c` are distinct paths — followed by the move
step.  `shutil.rmtree` succeeds on a directory target and raises
`OSError` on a file or unfollowed special entry. -/
def reorg_step2 (no_confirm ans_overwrite : Bool) (root : FsList)
    (s : OperationStats) (p c : Name) : FsList × OperationStats :=
  match lookupEntry root c with
  | some t =>
      let s1 := add_log s (str "Target exists") .WARNING
      if !no_confirm && !ans_overwrite then
        let s2 := add_log s1 (str "Skipped by user") .INFO
        (root, { s2 with dirs_ignored := s2.dirs_ignored + 1 })
      else
        let s2 := add_log s1 (str "Removing directory") .INFO
        match t with
        | .dir _ _ => reorg_move (removeEntry root c) s2 p c
        | _ =>
            let s3 := add_log s2 (str "Clear failed") .ERROR
            (root, { s3 with dirs_ignored := s3.dirs_ignored + 1 })
  | none => reorg_move root s p c

/-- One iteration of the loop of `reorganize_directories`
(`unzip_files_then_clean.py` lines 1020-1077): count the examination,
clean the parent's subtree with `remove_apple_system_files`, then handle
the target and the move. -/
def reorg_step (no_confirm ans_overwrite : Bool)
    (st : FsList × OperationStats) (pc : Name × Name) :
    FsList × OperationStats :=
  let s1 := add_log { st.2 with dirs_examined := st.2.dirs_examined + 1 }
    (str "Processing") .OPERATION
  match lookupEntry st.1 pc.1 with
  | some (.dir pn cs) =>
      let r := cleanL cs
      let root1 := updateEntry st.1 pc.1 (.dir pn r.1)
      let s2 := { s1 with files_removed := s1.files_removed + r.2.1,
                          dirs_removed := s1.dirs_removed + r.2.2 }
      reorg_step2 no_confirm ans_overwrite root1 s2 pc.1 pc.2
  | _ => reorg_step2 no_confirm ans_overwrite st.1 s1 pc.1 pc.2

/-- `reorganize_directories(source_dir, stats, no_confirm)`
(`unzip_files_then_clean.py` lines 998-1077): process every candidate
pair of the snapshot in order. -/
def reorganize_directories (no_confirm ans_overwrite : Bool)
    (root : FsList) (s : OperationStats) : FsList × OperationStats :=
  (find_single_child_dirs root).foldl (reorg_step no_confirm ans_overwrite)
    (root, s)

/-- The `root/outer/inner` scenario: one pass moves `inner` (three
files) up and removes `outer`. -/
example :
    (reorganize_directories true true
        (.cons (.dir (str "outer") (.cons (.dir (str "inner")
          (.cons (.file (str "a")) (.cons (.file (str "b"))
            (.cons (.file (str "c")) .nil)))) .nil)) .nil)
        initial_stats).1
      = .cons (.dir (str "inner")
          (.cons (.file (str "a")) (.cons (.file (str "b"))
            (.cons (.file (str "c")) .nil)))) .nil := by rfl


/-!
### Listing lemmas
-/

theorem names_of_mem : ∀ (l : FsList) (e : FsEntry),
    e ∈ FsList.toList l → e.name ∈ names l
  | .nil, e, h => by simp [FsList.toList] at h
  | .cons e0 l, e, h => by
      rcases (by simpa [FsList.toList] using h : e = e0 ∨ e ∈ FsList.toList l)
        with h1 | h1
      · subst h1; simp [names]
      · simp [names, names_of_mem l e h1]

theorem lookup_some_mem : ∀ (l : FsList) (n : Name) (e : FsEntry),
    lookupEntry l n = some e → e ∈ FsList.toList l ∧ e.name = n
  | .nil, n, e, h => by simp [lookupEntry] at h
  | .cons e0 l, n, e, h => by
      by_cases h0 : e0.name = n
      · simp only [lookupEntry, if_pos h0, Option.some.injEq] at h
        subst h
        exact ⟨by simp [FsList.toList], h0⟩
      · simp only [lookupEntry, if_neg h0] at h
        rcases lookup_some_mem l n e h with ⟨h1, h2⟩
        exact ⟨by simp [FsList.toList, h1], h2⟩

theorem lookup_eq_none : ∀ (l : FsList) (n : Name),
    lookupEntry l n = none ↔ n ∉ names l
  | .nil, n => by simp [lookupEntry, names]
  | .cons e0 l, n => by
      by_cases h0 : e0.name = n
      · subst h0
        simp [lookupEntry, names]
      · have h1 : n ≠ e0.name := fun hc => h0 hc.symm
        simp [lookupEntry, if_neg h0, names, lookup_eq_none l n, h1]

theorem mem_names_of_lookup (l : FsList) (n : Name) (e : FsEntry)
    (h : lookupEntry l n = some e) : n ∈ names l := by
  by_contra hn
  rw [← lookup_eq_none] at hn
  rw [h] at hn
  cases hn

theorem lookup_of_mem_nodup : ∀ (l : FsList) (e : FsEntry),
    (names l).Nodup → e ∈ FsList.toList l → lookupEntry l e.name = some e
  | .nil, e, _, h => by simp [FsList.toList] at h
  | .cons e0 l, e, hnd, h => by
      rcases (by simpa [FsList.toList] using h : e = e0 ∨ e ∈ FsList.toList l)
        with h1 | h1
      · subst h1; simp [lookupEntry]
      · rcases (by simpa [names] using hnd :
            e0.name ∉ names l ∧ (names l).Nodup) with ⟨ha, hb⟩
        have hne : e0.name ≠ e.name := by
          intro hc
          have hm := names_of_mem l e h1
          rw [← hc] at hm
          exact ha hm
        simp only [lookupEntry, if_neg hne]
        exact lookup_of_mem_nodup l e hb h1

theorem names_appendEntry : ∀ (l : FsList) (e : FsEntry),
    names (appendEntry l e) = names l ++ [e.name]
  | .nil, e => rfl
  | .cons e0 l, e => by simp [appendEntry, names, names_appendEntry l e]

theorem mem_names_removeEntry : ∀ (l : FsList) (n m : Name),
    m ∈ names (removeEntry l n) ↔ m ∈ names l ∧ m ≠ n
  | .nil, n, m => by simp [removeEntry, names]
  | .cons e0 l, n, m => by
      by_cases h0 : e0.name = n
      · subst h0
        rw [show removeEntry (FsList.cons e0 l) e0.name
            = removeEntry l e0.name from by simp [removeEntry]]
        simp only [names, List.mem_cons, mem_names_removeEntry l e0.name m]
        constructor
        · exact fun h => ⟨Or.inr h.1, h.2⟩
        · rintro ⟨h1 | h1, h2⟩
          · exact absurd h1 h2
          · exact ⟨h1, h2⟩
      · simp only [removeEntry, if_neg h0, names, List.mem_cons,
          mem_names_removeEntry l n m]
        constructor
        · rintro (h1 | ⟨h1, h2⟩)
          · subst h1
            exact ⟨Or.inl rfl, fun hc => h0 hc⟩
          · exact ⟨Or.inr h1, h2⟩
        · rintro ⟨h1 | h1, h2⟩
          · exact Or.inl h1
          · exact Or.inr ⟨h1, h2⟩

theorem nodup_names_removeEntry : ∀ (l : FsList) (n : Name),
    (names l).Nodup → (names (removeEntry l n)).Nodup
  | .nil, n, _ => by simp [removeEntry, names]
  | .cons e0 l, n, h => by
      rcases (by simpa [names] using h :
          e0.name ∉ names l ∧ (names l).Nodup) with ⟨h1, h2⟩
      by_cases h0 : e0.name = n
      · simp only [removeEntry, if_pos h0]
        exact nodup_names_removeEntry l n h2
      · simp only [removeEntry, if_neg h0, names, List.nodup_cons]
        refine ⟨fun hc => ?_, nodup_names_removeEntry l n h2⟩
        exact h1 ((mem_names_removeEntry l n e0.name).mp hc).1

theorem lookup_removeEntry_self : ∀ (l : FsList) (n : Name),
    lookupEntry (removeEntry l n) n = none
  | .nil, n => rfl
  | .cons e0 l, n => by
      by_cases h0 : e0.name = n
      · simp [removeEntry, if_pos h0, lookup_removeEntry_self l n]
      · simp [removeEntry, if_neg h0, lookupEntry, if_neg h0,
          lookup_removeEntry_self l n]

theorem lookup_removeEntry_ne : ∀ (l : FsList) (n m : Name), m ≠ n →
    lookupEntry (removeEntry l n) m = lookupEntry l m
  | .nil, n, m, _ => rfl
  | .cons e0 l, n, m, h => by
      by_cases h0 : e0.name = n
      · have h1 : e0.name ≠ m := by rw [h0]; exact fun hc => h hc.symm
        simp [removeEntry, if_pos h0, lookupEntry, if_neg h1,
          lookup_removeEntry_ne l n m h]
      · by_cases h1 : e0.name = m
        · simp [removeEntry, if_neg h0, lookupEntry, if_pos h1]
        · simp [removeEntry, if_neg h0, lookupEntry, if_neg h1,
            lookup_removeEntry_ne l n m h]

theorem lookup_appendEntry_of_some : ∀ (l : FsList) (e x : FsEntry)
    (n : Name), lookupEntry l n = some x →
    lookupEntry (appendEntry l e) n = some x
  | .nil, e, x, n, h => by simp [lookupEntry] at h
  | .cons e0 l, e, x, n, h => by
      by_cases h0 : e0.name = n
      · simp only [lookupEntry, if_pos h0, Option.some.injEq] at h
        subst h
        simp [appendEntry, lookupEntry, if_pos h0]
      · simp only [lookupEntry, if_neg h0] at h
        simp [appendEntry, lookupEntry, if_neg h0,
          lookup_appendEntry_of_some l e x n h]

theorem lookup_appendEntry_of_none : ∀ (l : FsList) (e : FsEntry)
    (n : Name), lookupEntry l n = none →
    lookupEntry (appendEntry l e) n
      = if e.name = n then some e else none
  | .nil, e, n, _ => by simp [appendEntry, lookupEntry]
  | .cons e0 l, e, n, h => by
      by_cases h0 : e0.name = n
      · simp [lookupEntry, if_pos h0] at h
      · simp only [lookupEntry, if_neg h0] at h
        simp [appendEntry, lookupEntry, if_neg h0,
          lookup_appendEntry_of_none l e n h]

theorem updateEntry_of_lookup_none : ∀ (l : FsList) (n : Name)
    (e : FsEntry), lookupEntry l n = none → updateEntry l n e = l
  | .nil, _, _, _ => rfl
  | .cons e0 l, n, e, h => by
      by_cases h0 : e0.name = n
      · simp [lookupEntry, if_pos h0] at h
      · simp only [lookupEntry, if_neg h0] at h
        simp [updateEntry, if_neg h0, updateEntry_of_lookup_none l n e h]

theorem updateEntry_self : ∀ (l : FsList) (n : Name) (e : FsEntry),
    (names l).Nodup → lookupEntry l n = some e → updateEntry l n e = l
  | .nil, n, e, _, h => by simp [lookupEntry] at h
  | .cons e0 l, n, e, hnd, h => by
      rcases (by simpa [names] using hnd :
          e0.name ∉ names l ∧ (names l).Nodup) with ⟨hn1, hn2⟩
      by_cases h0 : e0.name = n
      · simp only [lookupEntry, if_pos h0, Option.some.injEq] at h
        subst h
        have hnl : lookupEntry l n = none := by
          rw [lookup_eq_none]
          rw [h0] at hn1
          exact hn1
        simp [updateEntry, if_pos h0, updateEntry_of_lookup_none l n e0 hnl]
      · simp only [lookupEntry, if_neg h0] at h
        simp [updateEntry, if_neg h0, updateEntry_self l n e hn2 h]

theorem removeEntry_updateEntry : ∀ (l : FsList) (n : Name) (e : FsEntry),
    e.name = n → removeEntry (updateEntry l n e) n = removeEntry l n
  | .nil, n, e, _ => rfl
  | .cons e0 l, n, e, he => by
      by_cases h0 : e0.name = n
      · simp [updateEntry, if_pos h0, removeEntry, if_pos he, if_pos h0,
          removeEntry_updateEntry l n e he]
      · simp [updateEntry, if_neg h0, removeEntry, if_neg h0,
          removeEntry_updateEntry l n e he]

theorem removeEntry_appendEntry : ∀ (l : FsList) (e : FsEntry) (n : Name),
    e.name ≠ n →
    removeEntry (appendEntry l e) n = appendEntry (removeEntry l n) e
  | .nil, e, n, h => by simp [appendEntry, removeEntry, if_neg h]
  | .cons e0 l, e, n, h => by
      by_cases h0 : e0.name = n
      · simp [appendEntry, removeEntry, if_pos h0,
          removeEntry_appendEntry l e n h]
      · simp [appendEntry, removeEntry, if_neg h0,
          removeEntry_appendEntry l e n h]

/-- One loop iteration of `reorganize_directories` on a candidate whose
parent is present with its single clean child directory and whose child
name is absent at root level: the child is moved up, the emptied parent
is removed, and the pair is counted as examined and reorganized. -/
theorem reorg_step_success (no_confirm ans_overwrite : Bool)
    (R : FsList) (s : OperationStats) (p c : Name) (ccs : FsList)
    (hnodup : (names R).Nodup)
    (hR : lookupEntry R p = some (.dir p (.cons (.dir c ccs) .nil)))
    (hclean : cleanE (.dir c ccs) = (some (.dir c ccs), 0, 0))
    (hc : lookupEntry R c = none) :
    ∃ s1 : OperationStats,
      reorg_step no_confirm ans_overwrite (R, s) (p, c)
        = (appendEntry (removeEntry R p) (.dir c ccs), s1)
      ∧ s1.dirs_examined = s.dirs_examined + 1
      ∧ s1.dirs_reorganized = s.dirs_reorganized + 1
      ∧ s1.dirs_ignored = s.dirs_ignored
      ∧ s1.files_removed = s.files_removed
      ∧ s1.dirs_removed = s.dirs_removed := by
  have hcp : c ≠ p := by
    intro hcp
    rw [hcp, hR] at hc
    cases hc
  have hcl : cleanL (.cons (.dir c ccs) .nil)
      = (.cons (.dir c ccs) .nil, 0, 0) := by
    simp [cleanL, hclean]
  have key : reorg_step no_confirm ans_overwrite (R, s) (p, c)
      = (appendEntry (removeEntry R p) (.dir c ccs),
         let a := add_log { s with dirs_examined := s.dirs_examined + 1 }
           (str "Processing") LogLevel.OPERATION
         let d := add_log (add_log a (str "Moving directory") LogLevel.INFO)
           (str "Reorganization successful") LogLevel.SUCCESS
         { d with dirs_reorganized := d.dirs_reorganized + 1 }) := by
    unfold reorg_step
    simp only [hR, hcl, updateEntry_self R p _ hnodup hR]
    unfold reorg_step2
    simp only [hc]
    unfold reorg_move
    simp only [hR]
    simp [lookupEntry, removeEntry, FsEntry.name, hc]
    rw [removeEntry_appendEntry _ _ _
        (show (FsEntry.dir c ccs).name ≠ p from hcp),
      removeEntry_updateEntry R p (FsEntry.dir p FsList.nil) rfl]
  exact ⟨_, key, rfl, rfl, rfl, rfl, rfl⟩

/-- The full candidate pass of `reorganize_directories`, by induction
over the candidate list: when sibling names are unique, every candidate
child name is globally fresh and every candidate child subtree is free
of artifacts, each candidate parent is replaced at root level by its
child, nothing else changes, and the pass counts every candidate as
examined and reorganized and none as ignored. -/
theorem reorg_pass_aux (no_confirm ans_overwrite : Bool)
    (todo : List (Name × Name)) :
    ∀ (R : FsList) (s : OperationStats),
      (names R).Nodup →
      (∀ pc ∈ todo, ∃ ccs,
          lookupEntry R pc.1
            = some (.dir pc.1 (.cons (.dir pc.2 ccs) .nil))
          ∧ cleanE (.dir pc.2 ccs) = (some (.dir pc.2 ccs), 0, 0)) →
      (∀ pc ∈ todo, pc.2 ∉ names R) →
      (todo.map Prod.fst).Nodup →
      (todo.map Prod.snd).Nodup →
      (∀ n, n ∉ todo.map Prod.fst → n ∉ todo.map Prod.snd →
          lookupEntry (todo.foldl (reorg_step no_confirm ans_overwrite)
            (R, s)).1 n = lookupEntry R n)
      ∧ (∀ pc ∈ todo, ∀ ccs,
          lookupEntry R pc.1
            = some (.dir pc.1 (.cons (.dir pc.2 ccs) .nil)) →
          lookupEntry (todo.foldl (reorg_step no_confirm ans_overwrite)
            (R, s)).1 pc.1 = none
          ∧ lookupEntry (todo.foldl (reorg_step no_confirm ans_overwrite)
              (R, s)).1 pc.2 = some (.dir pc.2 ccs))
      ∧ (todo.foldl (reorg_step no_confirm ans_overwrite)
            (R, s)).2.dirs_examined = s.dirs_examined + todo.length
      ∧ (todo.foldl (reorg_step no_confirm ans_overwrite)
            (R, s)).2.dirs_reorganized
          = s.dirs_reorganized + todo.length
      ∧ (todo.foldl (reorg_step no_confirm ans_overwrite)
            (R, s)).2.dirs_ignored = s.dirs_ignored
      ∧ (todo.foldl (reorg_step no_confirm ans_overwrite)
            (R, s)).2.files_removed = s.files_removed
      ∧ (todo.foldl (reorg_step no_confirm ans_overwrite)
            (R, s)).2.dirs_removed = s.dirs_removed := by
  induction todo with
  | nil =>
      intro R s _ _ _ _ _
      refine ⟨fun n _ _ => rfl, fun pc h => absurd h (List.not_mem_nil pc),
        ?_, ?_, rfl, rfl, rfl⟩ <;> simp [List.foldl_nil]
  | cons hd rest ih =>
      intro R s hnodup hcand hfresh hPnd hCnd
      obtain ⟨p, c⟩ := hd
      obtain ⟨ccs, hR, hclean⟩ := hcand (p, c) (List.mem_cons_self _ _)
      have hcmem : c ∉ names R := hfresh (p, c) (List.mem_cons_self _ _)
      have hcnone : lookupEntry R c = none := (lookup_eq_none R c).mpr hcmem
      have hpmem : p ∈ names R := mem_names_of_lookup R p _ hR
      have hcp : c ≠ p := fun h => hcmem (h ▸ hpmem)
      obtain ⟨s1, hstep, hf1, hf2, hf3, hf4, hf5⟩ :=
        reorg_step_success no_confirm ans_overwrite R s p c ccs hnodup hR
          hclean hcnone
      have hfold : ((p, c) :: rest).foldl
            (reorg_step no_confirm ans_overwrite) (R, s)
          = rest.foldl (reorg_step no_confirm ans_overwrite)
              (appendEntry (removeEntry R p) (.dir c ccs), s1) := by
        rw [List.foldl_cons, hstep]
      have hmem1 : ∀ m, m ∈ names (appendEntry (removeEntry R p)
            (.dir c ccs)) ↔ (m ∈ names R ∧ m ≠ p) ∨ m = c := by
        intro m
        simp [names_appendEntry, mem_names_removeEntry, FsEntry.name]
      have hnodup1 : (names (appendEntry (removeEntry R p)
            (.dir c ccs))).Nodup := by
        rw [names_appendEntry]
        rw [List.nodup_append]
        refine ⟨nodup_names_removeEntry R p hnodup, List.nodup_singleton _,
          fun a ha hb => ?_⟩
        rcases (mem_names_removeEntry R p a).mp ha with ⟨ha1, _⟩
        have : a = (FsEntry.dir c ccs).name := by simpa using hb
        rw [this] at ha1
        exact hcmem ha1
      have hL1 : ∀ n, n ≠ p → n ≠ c →
          lookupEntry (appendEntry (removeEntry R p) (.dir c ccs)) n
            = lookupEntry R n := by
        intro n hnp hnc
        rcases hx : lookupEntry R n with _ | x
        · rw [lookup_appendEntry_of_none _ _ _
            (by rw [lookup_removeEntry_ne R p n hnp]; exact hx)]
          simp [FsEntry.name, Ne.symm hnc]
        · exact lookup_appendEntry_of_some _ _ _ _
            (by rw [lookup_removeEntry_ne R p n hnp]; exact hx)
      have hL2 : lookupEntry (appendEntry (removeEntry R p)
            (.dir c ccs)) p = none := by
        rw [lookup_appendEntry_of_none _ _ _ (lookup_removeEntry_self R p)]
        simp [FsEntry.name, hcp]
      have hL3 : lookupEntry (appendEntry (removeEntry R p)
            (.dir c ccs)) c = some (.dir c ccs) := by
        rw [lookup_appendEntry_of_none _ _ _
          (by rw [lookup_removeEntry_ne R p c hcp]; exact hcnone)]
        simp [FsEntry.name]
      have hPnd1 : p ∉ rest.map Prod.fst := (List.nodup_cons.mp
        (by simpa using hPnd)).1
      have hCnd1 : c ∉ rest.map Prod.snd := (List.nodup_cons.mp
        (by simpa using hCnd)).1
      have hparents : ∀ pc ∈ rest, pc.1 ∈ names R := by
        intro pc hpc
        obtain ⟨ccs1, hR1, _⟩ := hcand pc (List.mem_cons_of_mem _ hpc)
        exact mem_names_of_lookup R pc.1 _ hR1
      have hlookup_eq : ∀ pc ∈ rest,
          lookupEntry (appendEntry (removeEntry R p) (.dir c ccs)) pc.1
            = lookupEntry R pc.1 := by
        intro pc hpc
        have h1 : pc.1 ≠ p := fun h =>
          hPnd1 (h ▸ List.mem_map_of_mem Prod.fst hpc)
        have h2 : pc.1 ≠ c := fun h => hcmem (h ▸ hparents pc hpc)
        exact hL1 pc.1 h1 h2
      obtain ⟨ihframe, ihcand, iha, ihb, ihc, ihd, ihe⟩ :=
        ih (appendEntry (removeEntry R p) (.dir c ccs)) s1 hnodup1
          (by
            intro pc hpc
            obtain ⟨ccs1, hR1, hcl1⟩ := hcand pc (List.mem_cons_of_mem _ hpc)
            exact ⟨ccs1, by rw [hlookup_eq pc hpc]; exact hR1, hcl1⟩)
          (by
            intro pc hpc
            rw [hmem1]
            rintro (⟨h1, _⟩ | h1)
            · exact hfresh pc (List.mem_cons_of_mem _ hpc) h1
            · exact hCnd1 (h1 ▸ List.mem_map_of_mem Prod.snd hpc))
          (List.nodup_cons.mp (by simpa using hPnd)).2
          (List.nodup_cons.mp (by simpa using hCnd)).2
      rw [hfold]
      refine ⟨?_, ?_, ?_, ?_, ?_, ?_, ?_⟩
      · intro n hn1 hn2
        simp only [List.map_cons, List.mem_cons, not_or] at hn1 hn2
        rw [ihframe n hn1.2 hn2.2]
        exact hL1 n hn1.1 hn2.1
      · intro pc hpc ccs1 hR1
        rcases List.mem_cons.mp hpc with h | h
        · subst h
          rw [hR] at hR1
          have hcceq : ccs1 = ccs := by
            have := Option.some.inj hR1
            simpa [FsEntry.dir.injEq, FsList.cons.injEq] using this.symm
          subst hcceq
          have hp2 : p ∉ rest.map Prod.snd := by
            intro hmem
            rcases List.mem_map.mp hmem with ⟨pc1, hpc1, hpeq⟩
            exact hfresh pc1 (List.mem_cons_of_mem _ hpc1) (hpeq ▸ hpmem)
          have hc1 : c ∉ rest.map Prod.fst := by
            intro hmem
            rcases List.mem_map.mp hmem with ⟨pc1, hpc1, hceq⟩
            exact hcmem (hceq ▸ hparents pc1 hpc1)
          constructor
          · rw [ihframe p hPnd1 hp2]
            exact hL2
          · rw [ihframe c hc1 hCnd1]
            exact hL3
        · have := ihcand pc h ccs1 (by rw [hlookup_eq pc h]; exact hR1)
          exact this
      · rw [iha, hf1]; simp [List.length_cons]; omega
      · rw [ihb, hf2]; simp [List.length_cons]; omega
      · rw [ihc, hf3]
      · rw [ihd, hf4]
      · rw [ihe, hf5]

/-- Inversion of the candidate test: a candidate pair comes from a
directory entry whose listing is exactly one directory entry. -/
theorem single_child_of_eq_some :
    ∀ (e : FsEntry) (p c : Name), single_child_of e = some (p, c) →
      ∃ ccs, e = FsEntry.dir p (.cons (.dir c ccs) .nil)
  | .dir n (.cons (.dir m ccs) .nil), p, c, h => by
      simp only [single_child_of, Option.some.injEq, Prod.mk.injEq] at h
      exact ⟨ccs, by rw [h.1, h.2]⟩
  | .file n, _, _, h => by simp [single_child_of] at h
  | .special n, _, _, h => by simp [single_child_of] at h
  | .dir n .nil, _, _, h => by simp [single_child_of] at h
  | .dir n (.cons (.file m) .nil), _, _, h => by simp [single_child_of] at h
  | .dir n (.cons (.special m) .nil), _, _, h => by
      simp [single_child_of] at h
  | .dir n (.cons e1 (.cons e2 rest)), _, _, h => by
      simp [single_child_of] at h

/-- Every candidate pair of `find_single_child_dirs` comes from a root
entry that is a directory whose raw listing — before any cleaning — has
exactly one entry, that entry being a directory. -/
theorem find_single_child_mem :
    ∀ (l : FsList) (p c : Name), (p, c) ∈ find_single_child_dirs l →
      ∃ ccs, FsEntry.dir p (.cons (.dir c ccs) .nil) ∈ FsList.toList l
  | .nil, p, c, h => by simp [find_single_child_dirs] at h
  | .cons e l, p, c, h => by
      cases he : single_child_of e with
      | none =>
          rw [find_single_child_dirs, he] at h
          obtain ⟨ccs, hm⟩ := find_single_child_mem l p c h
          exact ⟨ccs, by simp [FsList.toList, hm]⟩
      | some pc =>
          rw [find_single_child_dirs, he] at h
          rcases List.mem_cons.mp h with h1 | h1
          · obtain ⟨ccs, hE⟩ := single_child_of_eq_some e p c (h1 ▸ he)
            exact ⟨ccs, by simp [FsList.toList, hE]⟩
          · obtain ⟨ccs, hm⟩ := find_single_child_mem l p c h1
            exact ⟨ccs, by simp [FsList.toList, hm]⟩

/-- The parent names of the candidate list form a sublist of the root's
names. -/
theorem cands_fst_sublist :
    ∀ l : FsList,
      ((find_single_child_dirs l).map Prod.fst).Sublist (names l)
  | .nil => List.Sublist.slnil
  | .cons e l => by
      cases he : single_child_of e with
      | none =>
          rw [find_single_child_dirs, he, names]
          exact (cands_fst_sublist l).cons e.name
      | some pc =>
          obtain ⟨p, c⟩ := pc
          obtain ⟨ccs, hE⟩ := single_child_of_eq_some e p c he
          rw [find_single_child_dirs, he, names, List.map_cons, hE]
          exact (cands_fst_sublist l).cons₂ _

/-- With unique sibling names, each candidate parent can be looked up in
the root listing and shows its single directory child. -/
theorem lookup_cand (root : FsList) (p c : Name)
    (hnodup : (names root).Nodup)
    (h : (p, c) ∈ find_single_child_dirs root) :
    ∃ ccs, lookupEntry root p
      = some (FsEntry.dir p (.cons (.dir c ccs) .nil)) := by
  obtain ⟨ccs, hm⟩ := find_single_child_mem root p c h
  exact ⟨ccs, lookup_of_mem_nodup root _ hnodup hm⟩

/-- C2 counterexample: a root whose only entry is a directory holding
two entries.  The directory is left unchanged by one pass — but the
`ignored` counter is not incremented for it (it is 0, not 1), because a
directory with two or more entries is never even examined: it is not a
candidate of `find_single_child_dirs`. -/
theorem reorganize_ignored_counterexample :
    (reorganize_directories true true
        (.cons (.dir (str "a") (.cons (.file (str "x"))
          (.cons (.file (str "y")) .nil))) .nil) initial_stats).1
      = .cons (.dir (str "a") (.cons (.file (str "x"))
          (.cons (.file (str "y")) .nil))) .nil
      ∧ (reorganize_directories true true
          (.cons (.dir (str "a") (.cons (.file (str "x"))
            (.cons (.file (str "y")) .nil))) .nil)
          initial_stats).2.dirs_ignored = 0
      ∧ (reorganize_directories true true
          (.cons (.dir (str "a") (.cons (.file (str "x"))
            (.cons (.file (str "y")) .nil))) .nil)
          initial_stats).2.dirs_examined = 0 :=
  ⟨rfl, rfl, rfl⟩

/-- C2 corrected: in one pass of `reorganize_directories` over a root
with unique sibling names whose candidate child names are globally fresh
and whose candidate child subtrees carry no artifacts, every immediate
child directory of the root whose only entry is exactly one
subdirectory has that subdirectory moved up to the root and the emptied
parent removed (counted as examined and reorganized); every other root
entry — in particular every directory with two or more entries — is left
entirely unchanged, and the `ignored` counter is not incremented for
anything: directories with two or more entries are not candidates and no
counter changes for them. -/
theorem reorganize_spec (no_confirm ans_overwrite : Bool) (root : FsList)
    (s : OperationStats)
    (hnodup : (names root).Nodup)
    (hfresh : ∀ pc ∈ find_single_child_dirs root, pc.2 ∉ names root)
    (hCnd : ((find_single_child_dirs root).map Prod.snd).Nodup)
    (hclean : ∀ pc ∈ find_single_child_dirs root, ∀ ccs,
        lookupEntry root pc.1
          = some (.dir pc.1 (.cons (.dir pc.2 ccs) .nil)) →
        cleanE (.dir pc.2 ccs) = (some (.dir pc.2 ccs), 0, 0)) :
    (∀ p c, (p, c) ∈ find_single_child_dirs root →
        lookupEntry (reorganize_directories no_confirm ans_overwrite root
          s).1 p = none
        ∧ ∀ ccs, lookupEntry root p
            = some (.dir p (.cons (.dir c ccs) .nil)) →
          lookupEntry (reorganize_directories no_confirm ans_overwrite root
            s).1 c = some (.dir c ccs))
      ∧ (∀ e, e ∈ FsList.toList root → single_child_of e = none →
          lookupEntry (reorganize_directories no_confirm ans_overwrite root
            s).1 e.name = some e)
      ∧ (reorganize_directories no_confirm ans_overwrite root
          s).2.dirs_examined
        = s.dirs_examined + (find_single_child_dirs root).length
      ∧ (reorganize_directories no_confirm ans_overwrite root
          s).2.dirs_reorganized
        = s.dirs_reorganized + (find_single_child_dirs root).length
      ∧ (reorganize_directories no_confirm ans_overwrite root
          s).2.dirs_ignored = s.dirs_ignored := by
  have hcand : ∀ pc ∈ find_single_child_dirs root, ∃ ccs,
      lookupEntry root pc.1
        = some (.dir pc.1 (.cons (.dir pc.2 ccs) .nil))
      ∧ cleanE (.dir pc.2 ccs) = (some (.dir pc.2 ccs), 0, 0) := by
    intro pc hpc
    obtain ⟨ccs, hl⟩ := lookup_cand root pc.1 pc.2 hnodup hpc
    exact ⟨ccs, hl, hclean pc hpc ccs hl⟩
  have hPnd : ((find_single_child_dirs root).map Prod.fst).Nodup :=
    (cands_fst_sublist root).nodup hnodup
  obtain ⟨hframe, hcands, ha, hb, hc, _, _⟩ :=
    reorg_pass_aux no_confirm ans_overwrite (find_single_child_dirs root)
      root s hnodup hcand hfresh hPnd hCnd
  refine ⟨?_, ?_, ha, hb, hc⟩
  · intro p c hpc
    obtain ⟨ccs, hl⟩ := lookup_cand root p c hnodup hpc
    refine ⟨(hcands (p, c) hpc ccs hl).1, fun ccs1 hl1 => ?_⟩
    exact (hcands (p, c) hpc ccs1 hl1).2
  · intro e hmem hsc
    have hname : lookupEntry root e.name = some e :=
      lookup_of_mem_nodup root e hnodup hmem
    have h1 : e.name ∉ (find_single_child_dirs root).map Prod.fst := by
      intro hin
      rcases List.mem_map.mp hin with ⟨pc, hpc, hpeq⟩
      obtain ⟨ccs, hl⟩ := lookup_cand root pc.1 pc.2 hnodup hpc
      rw [hpeq] at hl
      rw [hname] at hl
      have he := Option.some.inj hl
      rw [he] at hsc
      simp [single_child_of] at hsc
    have h2 : e.name ∉ (find_single_child_dirs root).map Prod.snd := by
      intro hin
      rcases List.mem_map.mp hin with ⟨pc, hpc, hpeq⟩
      exact hfresh pc hpc (hpeq ▸ names_of_mem root e hmem)
    rw [show reorganize_directories no_confirm ans_overwrite root s
        = (find_single_child_dirs root).foldl
            (reorg_step no_confirm ans_overwrite) (root, s) from rfl]
    rw [hframe e.name h1 h2]
    exact hname

/-- A root whose single entry `outer` holds exactly the subdirectory
`inner`, which holds one file. -/
def rootSingle : FsList :=
  .cons (.dir (str "outer") (.cons (.dir (str "inner")
    (.cons (.file (str "a")) .nil)) .nil)) .nil

/-- Witness for C2 (corrected) at `rootSingle`: the pass removes `outer`
from the root, places `inner` (with its file) at the root, and counts
one reorganized directory and none ignored. -/
theorem reorganize_spec_witness :
    lookupEntry (reorganize_directories true true rootSingle
        initial_stats).1 (str "outer") = none
      ∧ lookupEntry (reorganize_directories true true rootSingle
          initial_stats).1 (str "inner")
        = some (.dir (str "inner") (.cons (.file (str "a")) .nil))
      ∧ (reorganize_directories true true rootSingle
          initial_stats).2.dirs_reorganized = 1
      ∧ (reorganize_directories true true rootSingle
          initial_stats).2.dirs_ignored = 0 := by
  obtain ⟨h1, _, _, h4, h5⟩ :=
    reorganize_spec true true rootSingle initial_stats (by decide)
      (by decide) (by decide)
      (by
        intro pc hpc ccs hl
        have hfc : find_single_child_dirs rootSingle
            = [(str "outer", str "inner")] := rfl
        rw [hfc] at hpc
        have hpc1 : pc = (str "outer", str "inner") := by simpa using hpc
        subst hpc1
        have hinj := Option.some.inj hl
        simp only [FsEntry.dir.injEq, FsList.cons.injEq, true_and] at hinj
        rw [← hinj.1]
        rfl)
  have hpair := h1 (str "outer") (str "inner") (by decide)
  refine ⟨hpair.1,
    hpair.2 (.cons (.file (str "a")) .nil) rfl, ?_, ?_⟩
  · rw [h4]; rfl
  · rw [h5]; rfl

/-- C5 counterexample: a directory whose contents are exactly one real
subdirectory plus one OS-metadata artifact file is not recognized as
single-child — `find_single_child_dirs` produces no candidate for it,
because the structural decision is made on the raw listing before any
cleaning — and one pass of `reorganize_directories` leaves the tree
unchanged with nothing examined or reorganized. -/
theorem artifact_blocks_single_child :
    find_single_child_dirs
        (.cons (.dir (str "parent") (.cons (.file (str ".DS_Store"))
          (.cons (.dir (str "real") .nil) .nil))) .nil) = []
      ∧ (reorganize_directories true true
          (.cons (.dir (str "parent") (.cons (.file (str ".DS_Store"))
            (.cons (.dir (str "real") .nil) .nil))) .nil)
          initial_stats).1
        = .cons (.dir (str "parent") (.cons (.file (str ".DS_Store"))
            (.cons (.dir (str "real") .nil) .nil))) .nil
      ∧ (reorganize_directories true true
          (.cons (.dir (str "parent") (.cons (.file (str ".DS_Store"))
            (.cons (.dir (str "real") .nil) .nil))) .nil)
          initial_stats).2.dirs_examined = 0
      ∧ (reorganize_directories true true
          (.cons (.dir (str "parent") (.cons (.file (str ".DS_Store"))
            (.cons (.dir (str "real") .nil) .nil))) .nil)
          initial_stats).2.dirs_reorganized = 0 :=
  ⟨rfl, rfl, rfl, rfl⟩

/-- C5 corrected: cleaning runs only on already-discovered candidates,
after the structural decision is made — every candidate pair of
`find_single_child_dirs` comes from a parent whose raw listing (before
any cleaning) has exactly one entry, that entry being a directory, so a
parent holding a real subdirectory plus artifact files is never a
candidate. -/
theorem single_child_decision_before_cleaning (root : FsList) (p c : Name)
    (h : (p, c) ∈ find_single_child_dirs root) :
    ∃ ccs, FsEntry.dir p (.cons (.dir c ccs) .nil) ∈ FsList.toList root :=
  find_single_child_mem root p c h

/-- Witness for C5 (corrected) at `rootSingle`. -/
theorem single_child_decision_before_cleaning_witness :
    ∃ ccs, FsEntry.dir (str "outer")
        (.cons (.dir (str "inner") ccs) .nil)
      ∈ FsList.toList rootSingle :=
  single_child_decision_before_cleaning rootSingle (str "outer")
    (str "inner") (by decide)
